/-
Verification of the muduo event-loop core against its specification.

The definitions below are a shallow embedding of the C++ sources:
  - muduo/net/Channel.cc        (event dispatch)
  - muduo/net/TimerQueue.cc     (timer bookkeeping)
  - muduo/net/SocketsOps.cc     (accept errno classification, getSocketError)
  - muduo/base/Timestamp.cc     (clock source)
Machine integers are modelled as Nat / Int; poll(2) event masks are Nat
bitmasks with the Linux x86-64 constants; callbacks are modelled by the
trace of invocations they would receive.
-/
import Mathlib

namespace Muduo

/-! ## Channel (muduo/net/Channel.cc)

The dispatch logic of Channel::handleEventWithGuard is a pure function of
the received event mask `revents_`, the set of installed callbacks, and the
poll receive time.  We model an installed callback by a Bool flag and the
dispatch by the ordered trace of callback invocations. -/

/-- poll(2) event bit, Linux: there is data to read. -/
def POLLIN : Nat := 0x001
/-- poll(2) event bit, Linux: exceptional condition (priority data). -/
def POLLPRI : Nat := 0x002
/-- poll(2) event bit, Linux: writing is possible. -/
def POLLOUT : Nat := 0x004
/-- poll(2) event bit, Linux: error condition. -/
def POLLERR : Nat := 0x008
/-- poll(2) event bit, Linux: hang up. -/
def POLLHUP : Nat := 0x010
/-- poll(2) event bit, Linux: invalid request, fd not open. -/
def POLLNVAL : Nat := 0x020
/-- poll(2) event bit, Linux: stream socket peer closed its writing half. -/
def POLLRDHUP : Nat := 0x2000

/-- Which of the four callbacks are installed on a Channel. -/
structure Callbacks where
  hasClose : Bool
  hasError : Bool
  hasRead : Bool
  hasWrite : Bool
deriving DecidableEq, Repr

/-- One callback invocation, as observed in the dispatch trace.  The read
callback receives the poll receive time. -/
inductive Fired where
  | close : Fired
  | error : Fired
  | read : Int → Fired
  | write : Fired
deriving DecidableEq, Repr

/-- Channel::handleEventWithGuard, Channel.cc lines 93-135: the four guarded
dispatch statements in source order, producing the trace of callback
invocations.  Logging statements have no observable effect on the trace. -/
def handleEventWithGuard (revents : Nat) (cb : Callbacks) (receiveTime : Int) :
    List Fired :=
  let trace : List Fired := []
  -- if ((revents_ & POLLHUP) && !(revents_ & POLLIN)) \x7b if (closeCallback_) closeCallback_(); \x7d
  let trace := if (revents &&& POLLHUP != 0) && (revents &&& POLLIN == 0) then
      (if cb.hasClose then trace ++ [Fired.close] else trace)
    else trace
  -- if (revents_ & POLLNVAL) : log only
  -- if (revents_ & (POLLERR | POLLNVAL)) \x7b if (errorCallback_) errorCallback_(); \x7d
  let trace := if revents &&& (POLLERR ||| POLLNVAL) != 0 then
      (if cb.hasError then trace ++ [Fired.error] else trace)
    else trace
  -- if (revents_ & (POLLIN | POLLPRI | POLLRDHUP)) \x7b if (readCallback_) readCallback_(receiveTime); \x7d
  let trace := if revents &&& (POLLIN ||| POLLPRI ||| POLLRDHUP) != 0 then
      (if cb.hasRead then trace ++ [Fired.read receiveTime] else trace)
    else trace
  -- if (revents_ & POLLOUT) \x7b if (writeCallback_) writeCallback_(); \x7d
  let trace := if revents &&& POLLOUT != 0 then
      (if cb.hasWrite then trace ++ [Fired.write] else trace)
    else trace
  trace

/-- Condition under which the close callback is considered: HANGUP set and
POLLIN (normal read readiness) not set. -/
def closeCond (revents : Nat) : Bool :=
  (revents &&& POLLHUP != 0) && (revents &&& POLLIN == 0)

/-- Condition under which the error callback is considered: ERROR or INVALID. -/
def errorCond (revents : Nat) : Bool :=
  revents &&& (POLLERR ||| POLLNVAL) != 0

/-- Condition under which the read callback is considered: READ, priority
READ, or READ-HANGUP. -/
def readCond (revents : Nat) : Bool :=
  revents &&& (POLLIN ||| POLLPRI ||| POLLRDHUP) != 0

/-- Condition under which the write callback is considered: WRITE. -/
def writeCond (revents : Nat) : Bool :=
  revents &&& POLLOUT != 0

/-- The canonical dispatch list for a given mask, callback set and receive
time: close, then error, then read, then write, each kept exactly when its
condition holds and the callback is installed. -/
def canonicalKeep (revents : Nat) (cb : Callbacks) : Fired → Bool
  | Fired.close => closeCond revents && cb.hasClose
  | Fired.error => errorCond revents && cb.hasError
  | Fired.read _ => readCond revents && cb.hasRead
  | Fired.write => writeCond revents && cb.hasWrite

/-- Channel::handleEvent, Channel.cc lines 74-91: the tie guard.  `tied`
models `tied_`; `tieAlive` models success of the weak-to-strong upgrade
`tie_.lock()`.  On a failed upgrade nothing is dispatched. -/
def handleEvent (tied : Bool) (tieAlive : Bool) (revents : Nat)
    (cb : Callbacks) (receiveTime : Int) : List Fired :=
  if tied then
    (if tieAlive then handleEventWithGuard revents cb receiveTime else [])
  else handleEventWithGuard revents cb receiveTime

/-- All four callbacks installed. -/
def allCallbacks : Callbacks := ⟨true, true, true, true⟩

/-! ## SocketsOps (muduo/net/SocketsOps.cc)

sockets::accept classifies the saved errno after a failed ::accept4 call;
sockets::getSocketError wraps getsockopt(SO_ERROR).  LOG_FATAL terminates
the process; its destructor lives in muduo/base/Logging.cc. -/

/-- Linux errno: operation not permitted. -/
def EPERM : Nat := 1
/-- Linux errno: interrupted system call. -/
def EINTR : Nat := 4
/-- Linux errno: bad file descriptor. -/
def EBADF : Nat := 9
/-- Linux errno: resource temporarily unavailable. -/
def EAGAIN : Nat := 11
/-- Linux errno: out of memory. -/
def ENOMEM : Nat := 12
/-- Linux errno: bad address. -/
def EFAULT : Nat := 14
/-- Linux errno: invalid argument. -/
def EINVAL : Nat := 22
/-- Linux errno: file table overflow. -/
def ENFILE : Nat := 23
/-- Linux errno: too many open files in the process. -/
def EMFILE : Nat := 24
/-- Linux errno: protocol error. -/
def EPROTO : Nat := 71
/-- Linux errno: socket operation on non-socket. -/
def ENOTSOCK : Nat := 88
/-- Linux errno: operation not supported on transport endpoint. -/
def EOPNOTSUPP : Nat := 95
/-- Linux errno: software caused connection abort. -/
def ECONNABORTED : Nat := 103
/-- Linux errno: no buffer space available. -/
def ENOBUFS : Nat := 105

/-- The six errno values the accept switch treats as expected. -/
def acceptTransientErrnos : List Nat :=
  [EAGAIN, EINTR, ECONNABORTED, EPROTO, EPERM, EMFILE]

/-- The eight errno values the accept switch labels unexpected and fatal. -/
def acceptFatalErrnos : List Nat :=
  [EBADF, EFAULT, EINVAL, ENFILE, ENOBUFS, ENOMEM, ENOTSOCK, EOPNOTSUPP]

/-- Outcome of the error path of sockets::accept. -/
structure AcceptResult where
  /-- the value returned to the caller (the negative descriptor) -/
  fd : Int
  /-- the errno value visible to the caller afterwards -/
  errnoAfter : Nat
  /-- whether the process was aborted -/
  aborted : Bool
deriving DecidableEq, Repr

/-- Error path of sockets::accept, SocketsOps.cc lines 214-243: the switch
over the saved errno after ::accept4 returned `connfd < 0`.  Expected errors
restore errno and fall through to `return connfd`; the listed unexpected
errno values and the default case hit LOG_FATAL.
Modelled from the spec for the missing Logging.cc: a FATAL-severity log
aborts the process with a diagnostic. -/
def acceptHandleError (connfd : Int) (savedErrno : Nat) : AcceptResult :=
  if savedErrno = EAGAIN ∨ savedErrno = ECONNABORTED ∨ savedErrno = EINTR ∨
      savedErrno = EPROTO ∨ savedErrno = EPERM ∨ savedErrno = EMFILE then
    -- expected errors: errno = savedErrno; break; return connfd;
    { fd := connfd, errnoAfter := savedErrno, aborted := false }
  else if savedErrno = EBADF ∨ savedErrno = EFAULT ∨ savedErrno = EINVAL ∨
      savedErrno = ENFILE ∨ savedErrno = ENOBUFS ∨ savedErrno = ENOMEM ∨
      savedErrno = ENOTSOCK ∨ savedErrno = EOPNOTSUPP then
    -- unexpected errors: LOG_FATAL aborts
    { fd := connfd, errnoAfter := savedErrno, aborted := true }
  else
    -- unknown errors: LOG_FATAL aborts
    { fd := connfd, errnoAfter := savedErrno, aborted := true }

/-- Result of sockets::getSocketError. -/
structure SockErrResult where
  /-- the value returned to the caller -/
  value : Int
  /-- whether the process was aborted -/
  aborted : Bool
deriving DecidableEq, Repr

/-- sockets::getSocketError, SocketsOps.cc lines 399-429: fetch SO_ERROR via
getsockopt; if the getsockopt call itself fails (returns a negative value)
return the current errno, otherwise return the fetched option value.  There
is no logging and no fatal path. -/
def getSocketError (getsockoptRet : Int) (optval : Int) (errno : Int) :
    SockErrResult :=
  if getsockoptRet < 0 then ⟨errno, false⟩ else ⟨optval, false⟩

/-! ## Clock sources (muduo/base/Timestamp.cc, muduo/net/TimerQueue.cc)

Which kernel clock each time source reads is a static property of the
source: Timestamp::now() calls gettimeofday (the settable real-time clock),
while createTimerfd() passes CLOCK_MONOTONIC to timerfd_create. -/

/-- A kernel clock identifier. -/
inductive ClockId where
  | monotonic : ClockId
  | realtime : ClockId
deriving DecidableEq, Repr

/-- The clock read by Timestamp::now(), Timestamp.cc lines 53-85:
gettimeofday, i.e. the settable real-time wall clock. -/
def timestampNow_clock : ClockId := ClockId.realtime

/-- The clock of the kernel timer descriptor, TimerQueue.cc line 42:
timerfd_create(CLOCK_MONOTONIC, ...). -/
def createTimerfd_clock : ClockId := ClockId.monotonic

/-- The clock behind the `now` snapshot taken at the start of the expiry
drain, TimerQueue.cc line 190: `Timestamp now(Timestamp::now())`. -/
def handleReadSnapshot_clock : ClockId := timestampNow_clock

/-! ## Timer arming (muduo/net/TimerQueue.cc, detail::howMuchTimeFromNow) -/

/-- Timestamp::kMicroSecondsPerSecond (muduo/base/Timestamp.h; the value is
pinned by Timestamp.cc toString, which prints seconds and a six digit
microsecond fraction). -/
def kMicroSecondsPerSecond : Int := 1000 * 1000

/-- detail::howMuchTimeFromNow, TimerQueue.cc lines 50-63, with the
Timestamp::now() reading passed in as `now`: the microsecond difference,
clamped below at 100, split into whole seconds and nanoseconds exactly as
the C++ int64 division and modulo do (truncation toward zero). -/
def howMuchTimeFromNow (whenArg now : Int) : Int × Int :=
  let microseconds := whenArg - now
  let microseconds := if microseconds < 100 then 100 else microseconds
  (microseconds.tdiv kMicroSecondsPerSecond,
   microseconds.tmod kMicroSecondsPerSecond * 1000)

/-! ## TimerQueue (muduo/net/TimerQueue.cc)

The queue keeps two parallel ordered sets over the same timers:
`timers_` (byExpiry, a std::set of std::pair<Timestamp, Timer*>) and
`activeTimers_` (byIdentity, a std::set of std::pair<Timer*, int64_t>).
We model each std::set by the sorted list of its elements in iteration
order, a Timer* by the allocation address `addr`, and `new Timer` by a bump
allocator `nextAddr` (a live allocation never shares its address with
another live allocation). -/

/-- A heap-allocated Timer object (muduo/net/Timer.h, not in src/).
Modelled from the spec: a timer carries an expiration timestamp in
monotone microseconds, an interval (positive means repeating) and a
monotonically assigned sequence number; `addr` is the allocation address
that a Timer* denotes. -/
structure Timer where
  addr : Nat
  sequence : Nat
  expiration : Int
  interval : Int
deriving DecidableEq, Repr

/-- Timer::repeat(): the timer is repeating when its interval is positive
(interval zero means one-shot). -/
def Timer.isRepeat (t : Timer) : Bool := decide (0 < t.interval)

/-- Timer::restart (muduo/net/Timer.cc, not in src/).  Modelled from the
spec: a repeating timer advances its expiration one interval past `now`;
a one-shot timer becomes invalid (expiration zero). -/
def Timer.restart (t : Timer) (now : Int) : Timer :=
  if t.isRepeat then { t with expiration := now + t.interval }
  else { t with expiration := 0 }

/-- TimerQueue::Entry: std::pair<Timestamp, Timer*>. -/
abbrev Entry := Int × Timer

/-- TimerQueue::ActiveTimer: std::pair<Timer*, int64_t> (timer, sequence). -/
abbrev ActiveTimer := Timer × Nat

/-- Strict order of the byExpiry set: std::pair comparison on
(Timestamp, Timer*), i.e. lexicographic on (expiration, address). -/
def entryLtb (p q : Entry) : Bool :=
  decide (p.1 < q.1) || (p.1 == q.1 && decide (p.2.addr < q.2.addr))

/-- Strict order of the byIdentity set: std::pair comparison on
(Timer*, int64_t), i.e. lexicographic on (address, sequence). -/
def activeLtb (p q : ActiveTimer) : Bool :=
  decide (p.1.addr < q.1.addr) || (p.1.addr == q.1.addr && decide (p.2 < q.2))

/-- Insertion into a sorted list as std::set::insert does it: the new
element goes in front of the first strictly greater element; if an
equivalent element (neither less nor greater) is present, nothing is
inserted and the Bool (result.second in C++) is false. -/
def setInsertBy {α : Type} (lt : α → α → Bool) (x : α) :
    List α → List α × Bool
  | [] => ([x], true)
  | y :: l =>
    if lt x y then (x :: y :: l, true)
    else if lt y x then
      let r := setInsertBy lt x l
      (y :: r.1, r.2)
    else (y :: l, false)

/-- Erasure by key as std::set::erase does it: every element equivalent to
`x` (neither less nor greater) is removed. -/
def setEraseBy {α : Type} (lt : α → α → Bool) (x : α) (l : List α) : List α :=
  l.filter (fun y => lt x y || lt y x)

/-- The byIdentity view of a byExpiry entry: ActiveTimer(timer,
timer->sequence()), as built at every site in TimerQueue.cc. -/
def timerImage (p : Entry) : ActiveTimer := (p.2, p.2.sequence)

/-- The TimerQueue state: the two parallel indices, the drain flags, and
the bump allocator (`nextAddr` for heap addresses of `new Timer`,
`nextSeq` for the global Timer sequence counter, muduo/net/Timer.h, not in
src/; modelled from the spec: monotonically assigned sequence number). -/
structure TQState where
  timers_ : List Entry
  activeTimers_ : List ActiveTimer
  callingExpiredTimers_ : Bool
  cancelingTimers_ : List (Nat × Nat)
  nextAddr : Nat
  nextSeq : Nat
deriving DecidableEq, Repr

/-- A freshly constructed TimerQueue: both indices empty. -/
def TQState.init : TQState := ⟨[], [], false, [], 0, 0⟩

/-- TimerQueue::insert, TimerQueue.cc lines 262-287: record whether the new
timer expires before the current head of byExpiry, then insert the entry
into both indices (both insertions are asserted to succeed in the C++). -/
def TQState.insert (s : TQState) (t : Timer) : Bool × TQState :=
  let earliestChanged := match s.timers_ with
    | [] => true
    | p :: _ => decide (t.expiration < p.1)
  let r1 := setInsertBy entryLtb (t.expiration, t) s.timers_
  let r2 := setInsertBy activeLtb (t, t.sequence) s.activeTimers_
  (earliestChanged, { s with timers_ := r1.1, activeTimers_ := r2.1 })

/-- TimerQueue::addTimerInLoop, lines 158-166 (the conditional re-arming of
the timerfd has no effect on the queue state). -/
def TQState.addTimerInLoop (s : TQState) (t : Timer) : TQState :=
  (s.insert t).2

/-- TimerQueue::addTimer, lines 142-150, as run on the loop thread:
`new Timer(cb, when, interval)` allocates a fresh address and draws the
next sequence number; the timer is inserted and the TimerId
(address, sequence) is handed back as the cancellation token. -/
def TQState.addTimer (s : TQState) (whenArg interval : Int) :
    TQState × (Nat × Nat) :=
  let t : Timer := ⟨s.nextAddr, s.nextSeq, whenArg, interval⟩
  let s1 : TQState :=
    { s with nextAddr := s.nextAddr + 1, nextSeq := s.nextSeq + 1 }
  (s1.addTimerInLoop t, (t.addr, t.sequence))

/-- std::set::find on byIdentity with key ActiveTimer(timerId.timer_,
timerId.sequence_): the comparator inspects only the pointer value and the
sequence, so the lookup key is the pair (address, sequence). -/
def findActive (tid : Nat × Nat) (l : List ActiveTimer) :
    Option ActiveTimer :=
  l.find? (fun y => y.1.addr == tid.1 && y.2 == tid.2)

/-- TimerQueue::cancelInLoop, lines 168-185: a found timer is erased from
both indices (the byExpiry key is rebuilt as Entry(it->first->expiration(),
it->first)) and released; otherwise, while callbacks of the current drain
are running, the id is recorded in cancelingTimers_; otherwise no-op. -/
def TQState.cancelInLoop (s : TQState) (tid : Nat × Nat) : TQState :=
  match findActive tid s.activeTimers_ with
  | some it =>
    { s with
      timers_ := setEraseBy entryLtb (it.1.expiration, it.1) s.timers_,
      activeTimers_ := setEraseBy activeLtb it s.activeTimers_ }
  | none =>
    if s.callingExpiredTimers_ then
      { s with cancelingTimers_ :=
          if tid ∈ s.cancelingTimers_ then s.cancelingTimers_
          else tid :: s.cancelingTimers_ }
    else s

/-- The maximum pointer value used by the getExpired sentinel. -/
def UINTPTR_MAX : Nat := 2 ^ 64 - 1

/-- The sentinel Entry(now, reinterpret_cast<Timer*>(UINTPTR_MAX)) of
TimerQueue::getExpired (only its timestamp and address take part in any
comparison). -/
def sentry (now : Int) : Entry := (now, ⟨UINTPTR_MAX, 0, 0, 0⟩)

/-- An entry is expired when strictly below the sentinel in byExpiry order
(everything before lower_bound(sentry)). -/
def ltSentry (now : Int) (p : Entry) : Bool := entryLtb p (sentry now)

/-- TimerQueue::getExpired, lines 206-234: the entries strictly below the
sentinel form a prefix of the sorted byExpiry list; they are copied out,
erased from byExpiry, and each image is erased from byIdentity. -/
def TQState.getExpired (s : TQState) (now : Int) : List Entry × TQState :=
  let expired := s.timers_.takeWhile (ltSentry now)
  let remaining := s.timers_.dropWhile (ltSentry now)
  let act := expired.foldl
    (fun a p => setEraseBy activeLtb (timerImage p) a) s.activeTimers_
  (expired, { s with timers_ := remaining, activeTimers_ := act })

/-- One iteration of the loop in TimerQueue::reset, lines 240-251: a
repeating timer whose id is not recorded in cancelingTimers_ is restarted
one interval past now and reinserted; every other expired timer is
released. -/
def TQState.resetStep (now : Int) (s : TQState) (p : Entry) : TQState :=
  if p.2.isRepeat &&
      !(s.cancelingTimers_.contains (p.2.addr, p.2.sequence)) then
    (s.insert (p.2.restart now)).2
  else s

/-- TimerQueue::reset, lines 236-260 (the final re-arming of the timerfd
has no effect on the queue state). -/
def TQState.reset (s : TQState) (expired : List Entry) (now : Int) :
    TQState :=
  expired.foldl (TQState.resetStep now) s

/-- An operation a timer callback may perform on the queue while the drain
runs it.  The callback executes on the loop thread, so addTimer and cancel
run their InLoop bodies synchronously (spec 4.4: runInLoop from the loop
thread outside the pending-task drain executes immediately). -/
inductive CbOp where
  | add : Int → Int → CbOp
  | cancelOp : (Nat × Nat) → CbOp
deriving DecidableEq, Repr

/-- Apply a callback-issued operation. -/
def TQState.applyCbOp (s : TQState) : CbOp → TQState
  | CbOp.add whenArg interval => (s.addTimer whenArg interval).1
  | CbOp.cancelOp tid => s.cancelInLoop tid

/-- TimerQueue::handleRead, lines 187-204: snapshot now (passed in), read
the timerfd (no queue effect), move out the expired timers, run their
callbacks with callingExpiredTimers_ set and cancelingTimers_ cleared
(`cbOps` lists what the callbacks do to the queue), then reset. -/
def TQState.handleRead (s : TQState) (now : Int) (cbOps : List CbOp) :
    TQState :=
  let r := s.getExpired now
  let s1 := { r.2 with callingExpiredTimers_ := true, cancelingTimers_ := [] }
  let s2 := cbOps.foldl TQState.applyCbOp s1
  let s3 := { s2 with callingExpiredTimers_ := false }
  s3.reset r.1 now

/-- A top-level operation on the TimerQueue: an addTimer, a cancel, or an
expiry drain together with the operations its callbacks perform. -/
inductive TQOp where
  | add : Int → Int → TQOp
  | cancelOp : (Nat × Nat) → TQOp
  | expire : Int → List CbOp → TQOp
deriving DecidableEq, Repr

/-- Apply a top-level operation. -/
def TQState.applyOp (s : TQState) : TQOp → TQState
  | TQOp.add whenArg interval => (s.addTimer whenArg interval).1
  | TQOp.cancelOp tid => s.cancelInLoop tid
  | TQOp.expire now cbOps => s.handleRead now cbOps

/-- Run a sequence of operations from the initial state. -/
def runOps (ops : List TQOp) : TQState :=
  ops.foldl TQState.applyOp TQState.init

/-! ### The TimerQueue representation invariant -/

/-- Well-formedness of a TimerQueue state: byExpiry is strictly sorted,
byIdentity holds exactly the images of byExpiry, every stored timestamp is
the expiration of its timer, all addresses are below the allocator mark,
and an address identifies at most one entry. -/
structure WF (s : TQState) : Prop where
  sorted : s.timers_.Pairwise (fun p q => entryLtb p q = true)
  perm : s.activeTimers_.Perm (s.timers_.map timerImage)
  fid : ∀ p ∈ s.timers_, p.1 = p.2.expiration
  bound : ∀ p ∈ s.timers_, p.2.addr < s.nextAddr
  inj : ∀ p ∈ s.timers_, ∀ q ∈ s.timers_, p.2.addr = q.2.addr → p = q

def sampleTimer0 : Timer := ⟨0, 0, 1, 0⟩

def sampleTimer1 : Timer := ⟨1, 1, 2, 0⟩

def sampleTimer2 : Timer := ⟨2, 2, 3, 0⟩

/-- A small concrete TimerQueue state holding three one-shot timers with
expirations 1, 2 and 3. -/
def sampleTQ : TQState :=
  ⟨[(1, sampleTimer0), (2, sampleTimer1), (3, sampleTimer2)],
   [(sampleTimer0, 0), (sampleTimer1, 1), (sampleTimer2, 2)],
   false, [], 3, 3⟩

/-! ## Theorems -/

theorem handleEventWithGuard_eq_filter (revents : Nat) (cb : Callbacks)
    (rt : Int) :
    handleEventWithGuard revents cb rt =
      [Fired.close, Fired.error, Fired.read rt, Fired.write].filter
        (canonicalKeep revents cb) := by
  cases h1 : (revents &&& POLLHUP != 0) && (revents &&& POLLIN == 0) <;>
    cases h2 : revents &&& (POLLERR ||| POLLNVAL) != 0 <;>
      cases h3 : revents &&& (POLLIN ||| POLLPRI ||| POLLRDHUP) != 0 <;>
        cases h4 : revents &&& POLLOUT != 0 <;>
          cases h5 : cb.hasClose <;> cases h6 : cb.hasError <;>
            cases h7 : cb.hasRead <;> cases h8 : cb.hasWrite <;>
              simp [handleEventWithGuard, canonicalKeep, closeCond, errorCond,
                readCond, writeCond, h1, h2, h3, h4, h5, h6, h7, h8,
                List.filter]

/-- C1: For every single invocation of Channel::handleEvent, the installed
callbacks fire in the canonical conditional order close, error, read, write:
the trace is a sublist of that canonical sequence; the close callback fires
exactly when HANGUP is set without POLLIN and a close callback is installed;
the error callback exactly when ERROR or INVALID is set and installed; the
read callback, carrying the poll receive time, exactly when READ, priority
READ or READ-HANGUP is set and installed; the write callback exactly when
WRITE is set and installed; and each callback runs at most once. -/
theorem channel_dispatch_order (revents : Nat) (cb : Callbacks) (rt : Int) :
    (handleEventWithGuard revents cb rt).Sublist
      [Fired.close, Fired.error, Fired.read rt, Fired.write] ∧
    (Fired.close ∈ handleEventWithGuard revents cb rt ↔
      closeCond revents = true ∧ cb.hasClose = true) ∧
    (Fired.error ∈ handleEventWithGuard revents cb rt ↔
      errorCond revents = true ∧ cb.hasError = true) ∧
    (∀ t : Int, Fired.read t ∈ handleEventWithGuard revents cb rt ↔
      t = rt ∧ readCond revents = true ∧ cb.hasRead = true) ∧
    (Fired.write ∈ handleEventWithGuard revents cb rt ↔
      writeCond revents = true ∧ cb.hasWrite = true) ∧
    (∀ f : Fired, (handleEventWithGuard revents cb rt).count f ≤ 1) := by
  rw [handleEventWithGuard_eq_filter]
  have hsub : ([Fired.close, Fired.error, Fired.read rt, Fired.write].filter
      (canonicalKeep revents cb)).Sublist
      [Fired.close, Fired.error, Fired.read rt, Fired.write] :=
    List.filter_sublist _
  have hnodup : ([Fired.close, Fired.error, Fired.read rt, Fired.write].filter
      (canonicalKeep revents cb)).Nodup := by
    refine List.Nodup.sublist hsub ?_
    simp
  refine ⟨hsub, ?_, ?_, ?_, ?_, ?_⟩
  · simp [List.mem_filter, canonicalKeep]
  · simp [List.mem_filter, canonicalKeep]
  · intro t
    simp only [List.mem_filter, canonicalKeep]
    constructor
    · rintro ⟨hm, hk⟩
      simp only [List.mem_cons, List.not_mem_nil, or_false] at hm
      rcases hm with h | h | h | h
      · cases h
      · cases h
      · cases h
        exact ⟨rfl, by simpa [Bool.and_eq_true] using hk⟩
      · cases h
    · rintro ⟨rfl, h1, h2⟩
      exact ⟨by simp, by simp [h1, h2]⟩
  · simp [List.mem_filter, canonicalKeep]
  · exact fun f => List.nodup_iff_count_le_one.mp hnodup f

/-- C5: The tie guard of Channel::handleEvent: when tied and the weak tie
fails to upgrade, no callback fires; when the upgrade succeeds, or no tie was
ever set, dispatch proceeds exactly as handleEventWithGuard. -/
theorem channel_tie_guard (tieAlive : Bool) (revents : Nat) (cb : Callbacks)
    (rt : Int) :
    handleEvent true false revents cb rt = [] ∧
    handleEvent true true revents cb rt = handleEventWithGuard revents cb rt ∧
    handleEvent false tieAlive revents cb rt =
      handleEventWithGuard revents cb rt :=
  ⟨rfl, rfl, rfl⟩

/-- C6 counterexample: with all four callbacks installed and READ, WRITE,
ERROR and HANGUP all set in the received mask, the close callback does not
fire (the code requires HANGUP without POLLIN); the trace is error, read,
write only. -/
theorem channel_all_bits_counterexample :
    handleEventWithGuard (POLLIN ||| POLLOUT ||| POLLERR ||| POLLHUP)
      allCallbacks 0 = [Fired.error, Fired.read 0, Fired.write] ∧
    Fired.close ∉ handleEventWithGuard (POLLIN ||| POLLOUT ||| POLLERR ||| POLLHUP)
      allCallbacks 0 := by
  decide

/-- C6 (amended): for a channel with all four callbacks installed and all
four bits READ, WRITE, ERROR, HANGUP set, close is suppressed because READ
is present, and exactly error, then read, then write fire in that order;
the close callback fires first only when HANGUP is set without READ, e.g.
for the mask WRITE|ERROR|HANGUP the trace is close, error, write. -/
theorem channel_all_bits_dispatch (rt : Int) :
    handleEventWithGuard (POLLIN ||| POLLOUT ||| POLLERR ||| POLLHUP)
      allCallbacks rt = [Fired.error, Fired.read rt, Fired.write] ∧
    handleEventWithGuard (POLLOUT ||| POLLERR ||| POLLHUP)
      allCallbacks rt = [Fired.close, Fired.error, Fired.write] :=
  ⟨rfl, rfl⟩

/-- C7: for every failing sockets::accept call, EAGAIN, EINTR, ECONNABORTED,
EPROTO, EPERM and EMFILE are transient: the negative descriptor is returned
with errno preserved and the process continues; every other errno value is
fatal and the process aborts. -/
theorem accept_errno_classification (connfd : Int) (e : Nat)
    (h : connfd < 0) :
    (e ∈ acceptTransientErrnos →
      acceptHandleError connfd e = ⟨connfd, e, false⟩ ∧
      (acceptHandleError connfd e).fd < 0) ∧
    (e ∉ acceptTransientErrnos →
      (acceptHandleError connfd e).aborted = true) := by
  by_cases hd : e = EAGAIN ∨ e = ECONNABORTED ∨ e = EINTR ∨ e = EPROTO ∨
      e = EPERM ∨ e = EMFILE
  · constructor
    · intro _
      rw [acceptHandleError, if_pos hd]
      exact ⟨rfl, h⟩
    · intro hmem
      exfalso
      apply hmem
      simp only [acceptTransientErrnos, List.mem_cons, List.not_mem_nil,
        or_false]
      tauto
  · constructor
    · intro hmem
      exfalso
      apply hd
      simp only [acceptTransientErrnos, List.mem_cons, List.not_mem_nil,
        or_false] at hmem
      tauto
    · intro _
      rw [acceptHandleError, if_neg hd]
      by_cases hf : e = EBADF ∨ e = EFAULT ∨ e = EINVAL ∨ e = ENFILE ∨
          e = ENOBUFS ∨ e = ENOMEM ∨ e = ENOTSOCK ∨ e = EOPNOTSUPP
      · rw [if_pos hf]
      · rw [if_neg hf]

/-- Witness for accept_errno_classification at connfd = -1. -/
theorem accept_errno_classification_witness :
    (-1 : Int) < 0 ∧
    (acceptHandleError (-1) EAGAIN = ⟨-1, EAGAIN, false⟩ ∧
      (acceptHandleError (-1) EAGAIN).fd < 0) ∧
    (acceptHandleError (-1) ENOMEM).aborted = true :=
  ⟨by decide,
   (accept_errno_classification (-1) EAGAIN (by decide)).1 (by decide),
   (accept_errno_classification (-1) ENOMEM (by decide)).2 (by decide)⟩

/-- C10: sockets::getSocketError returns the pending SO_ERROR value fetched
by getsockopt when that call succeeds, returns the current errno when
getsockopt itself fails, and never aborts the process. -/
theorem getSocketError_spec (r optval errno : Int) :
    (getSocketError r optval errno).aborted = false ∧
    (r < 0 → (getSocketError r optval errno).value = errno) ∧
    (0 ≤ r → (getSocketError r optval errno).value = optval) := by
  refine ⟨?_, ?_, ?_⟩
  · rw [getSocketError]
    split <;> rfl
  · intro h
    rw [getSocketError, if_pos h]
  · intro h
    rw [getSocketError, if_neg (not_lt.mpr h)]

/-- Witness for getSocketError_spec at a failing and a succeeding call. -/
theorem getSocketError_spec_witness :
    (getSocketError (-1) 7 5).value = 5 ∧ (getSocketError 0 7 5).value = 7 :=
  ⟨(getSocketError_spec (-1) 7 5).2.1 (by decide),
   (getSocketError_spec 0 7 5).2.2 (by decide)⟩

/-- C9 counterexample: the `now` snapshot taken at the start of the expiry
drain and compared against timer expirations does not come from a monotonic
time source; it is read from gettimeofday, the settable real-time clock. -/
theorem timerQueue_snapshot_clock_counterexample :
    handleReadSnapshot_clock ≠ ClockId.monotonic := by
  decide

/-- C9 (amended): the kernel timer descriptor is created on the monotonic
clock, but the `now` snapshot driving the expiry drain, like every
Timestamp::now() call, reads gettimeofday, the settable real-time clock, so
timer scheduling comparisons are wall-clock based. -/
theorem timerQueue_clock_sources :
    createTimerfd_clock = ClockId.monotonic ∧
    handleReadSnapshot_clock = ClockId.realtime ∧
    timestampNow_clock = ClockId.realtime :=
  ⟨rfl, rfl, rfl⟩

/-- C8: howMuchTimeFromNow returns max(when - now, 100) microseconds split
into whole seconds and nanoseconds; in total nanoseconds the armed delay is
exactly 1000 * max(when - now, 100), hence never below 100 microseconds,
even when the target is in the past. -/
theorem howMuchTimeFromNow_spec (whenArg now : Int) :
    howMuchTimeFromNow whenArg now =
      ((max (whenArg - now) 100).tdiv kMicroSecondsPerSecond,
       (max (whenArg - now) 100).tmod kMicroSecondsPerSecond * 1000) ∧
    (howMuchTimeFromNow whenArg now).1 * 1000000000 +
        (howMuchTimeFromNow whenArg now).2 =
      max (whenArg - now) 100 * 1000 ∧
    100 * 1000 ≤ (howMuchTimeFromNow whenArg now).1 * 1000000000 +
        (howMuchTimeFromNow whenArg now).2 := by
  have hmax : (if whenArg - now < 100 then 100 else whenArg - now) =
      max (whenArg - now) 100 := by
    by_cases h : whenArg - now < 100
    · rw [if_pos h, max_eq_right (le_of_lt h)]
    · rw [if_neg h, max_eq_left (le_of_not_lt h)]
  have heq : howMuchTimeFromNow whenArg now =
      ((max (whenArg - now) 100).tdiv kMicroSecondsPerSecond,
       (max (whenArg - now) 100).tmod kMicroSecondsPerSecond * 1000) := by
    rw [howMuchTimeFromNow]
    simp only [hmax]
  have htotal : (howMuchTimeFromNow whenArg now).1 * 1000000000 +
      (howMuchTimeFromNow whenArg now).2 = max (whenArg - now) 100 * 1000 := by
    rw [heq]
    have hdm := Int.tdiv_add_tmod (max (whenArg - now) 100)
      kMicroSecondsPerSecond
    simp only [kMicroSecondsPerSecond] at hdm ⊢
    linarith
  refine ⟨heq, htotal, ?_⟩
  rw [htotal]
  have : (100 : Int) ≤ max (whenArg - now) 100 := le_max_right _ _
  linarith

/-! ### Facts about the two strict set orders -/

lemma bool_eq_of_iff {a b : Bool} (h : a = true ↔ b = true) : a = b := by
  cases a <;> cases b <;> simp_all

lemma entryLtb_trans {p q r : Entry} (h1 : entryLtb p q = true)
    (h2 : entryLtb q r = true) : entryLtb p r = true := by
  simp only [entryLtb, Bool.or_eq_true, Bool.and_eq_true, decide_eq_true_eq,
    beq_iff_eq] at *
  omega

lemma entryLtb_irrefl (p : Entry) : ¬ entryLtb p p = true := by
  simp [entryLtb]

lemma entryLtb_connex {p q : Entry} (h : ¬(p.1 = q.1 ∧ p.2.addr = q.2.addr)) :
    entryLtb p q = true ∨ entryLtb q p = true := by
  simp only [entryLtb, Bool.or_eq_true, Bool.and_eq_true, decide_eq_true_eq,
    beq_iff_eq]
  omega

lemma entryLtb_or_iff (x y : Entry) :
    (entryLtb x y || entryLtb y x) = true ↔
      ¬(x.1 = y.1 ∧ x.2.addr = y.2.addr) := by
  simp only [entryLtb, Bool.or_eq_true, Bool.and_eq_true, decide_eq_true_eq,
    beq_iff_eq]
  omega

lemma activeLtb_or_iff (x y : ActiveTimer) :
    (activeLtb x y || activeLtb y x) = true ↔
      ¬(x.1.addr = y.1.addr ∧ x.2 = y.2) := by
  simp only [activeLtb, Bool.or_eq_true, Bool.and_eq_true, decide_eq_true_eq,
    beq_iff_eq]
  omega

lemma activeLtb_connex {x y : ActiveTimer} (h : x.1.addr ≠ y.1.addr) :
    activeLtb x y = true ∨ activeLtb y x = true := by
  simp only [activeLtb, Bool.or_eq_true, Bool.and_eq_true, decide_eq_true_eq,
    beq_iff_eq]
  omega

/-! ### std::set insertion preserves contents and order -/

lemma setInsertBy_perm {α : Type} (lt : α → α → Bool) (x : α) :
    ∀ l : List α, (∀ y ∈ l, lt x y = true ∨ lt y x = true) →
      (setInsertBy lt x l).1.Perm (x :: l) := by
  intro l
  induction l with
  | nil => intro _; simp [setInsertBy]
  | cons y l ih =>
    intro h
    by_cases h1 : lt x y = true
    · rw [setInsertBy, if_pos h1]
    · have h2 : lt y x = true :=
        (h y (List.mem_cons_self y l)).resolve_left h1
      have hrec := ih (fun z hz => h z (List.mem_cons_of_mem y hz))
      rw [setInsertBy, if_neg h1, if_pos h2]
      exact (hrec.cons y).trans (List.Perm.swap x y l)

lemma setInsertBy_pairwise {α : Type} {lt : α → α → Bool}
    (htrans : ∀ a b c, lt a b = true → lt b c = true → lt a c = true)
    (x : α) :
    ∀ l : List α, l.Pairwise (fun a b => lt a b = true) →
      (∀ y ∈ l, lt x y = true ∨ lt y x = true) →
      (setInsertBy lt x l).1.Pairwise (fun a b => lt a b = true) := by
  intro l
  induction l with
  | nil => intro _ _; simp [setInsertBy]
  | cons y l ih =>
    intro hp h
    rcases List.pairwise_cons.mp hp with ⟨hy, hl⟩
    by_cases h1 : lt x y = true
    · rw [setInsertBy, if_pos h1]
      refine List.pairwise_cons.mpr ⟨?_, hp⟩
      intro z hz
      rcases List.mem_cons.mp hz with rfl | hz2
      · exact h1
      · exact htrans x y z h1 (hy z hz2)
    · have h2 : lt y x = true :=
        (h y (List.mem_cons_self y l)).resolve_left h1
      have hperm :=
        setInsertBy_perm lt x l (fun z hz => h z (List.mem_cons_of_mem y hz))
      rw [setInsertBy, if_neg h1, if_pos h2]
      refine List.pairwise_cons.mpr
        ⟨?_, ih hl (fun z hz => h z (List.mem_cons_of_mem y hz))⟩
      intro z hz
      rcases List.mem_cons.mp (hperm.mem_iff.mp hz) with rfl | hz2
      · exact h2
      · exact hy z hz2

/-! ### The byIdentity erasures of getExpired, as one filter -/

lemma foldl_setEraseBy (L : List Entry) :
    ∀ a : List ActiveTimer,
      L.foldl (fun acc p => setEraseBy activeLtb (timerImage p) acc) a =
        a.filter (fun y => L.all
          (fun p => activeLtb (timerImage p) y || activeLtb y (timerImage p))) := by
  induction L with
  | nil => intro a; simp
  | cons p L ih =>
    intro a
    rw [List.foldl_cons, ih, setEraseBy, List.filter_filter]
    apply List.filter_congr
    intro y _
    simp only [List.all_cons]
    rw [Bool.and_comm]

lemma WF.sizes_eq {s : TQState} (h : WF s) :
    s.timers_.length = s.activeTimers_.length := by
  have := h.perm.length_eq
  simp only [List.length_map] at this
  exact this.symm

lemma WF.init : WF TQState.init := by
  constructor <;> simp [TQState.init]

lemma WF.active_addr_ne {s : TQState} (h : WF s) {t : Timer}
    (hfresh : ∀ p ∈ s.timers_, p.2.addr ≠ t.addr) :
    ∀ y ∈ s.activeTimers_, y.1.addr ≠ t.addr := by
  intro y hy
  have hy2 : y ∈ s.timers_.map timerImage := h.perm.subset hy
  rcases List.mem_map.mp hy2 with ⟨p, hp, rfl⟩
  exact hfresh p hp

lemma insert_WF {s : TQState} (t : Timer) (h : WF s)
    (hfresh : ∀ p ∈ s.timers_, p.2.addr ≠ t.addr)
    (hbound : t.addr < s.nextAddr) :
    WF (s.insert t).2 ∧
      (s.insert t).2.timers_.Perm ((t.expiration, t) :: s.timers_) := by
  have hconnexT : ∀ p ∈ s.timers_,
      entryLtb (t.expiration, t) p = true ∨
        entryLtb p (t.expiration, t) = true := by
    intro p hp
    exact entryLtb_connex (fun hc => hfresh p hp hc.2.symm)
  have hconnexA : ∀ y ∈ s.activeTimers_,
      activeLtb (t, t.sequence) y = true ∨
        activeLtb y (t, t.sequence) = true := by
    intro y hy
    exact activeLtb_connex (h.active_addr_ne hfresh y hy).symm
  have hpermT := setInsertBy_perm entryLtb (t.expiration, t) s.timers_ hconnexT
  have hpermA :=
    setInsertBy_perm activeLtb (t, t.sequence) s.activeTimers_ hconnexA
  refine ⟨⟨?_, ?_, ?_, ?_, ?_⟩, hpermT⟩
  · exact setInsertBy_pairwise
      (fun a b c (h1 : entryLtb a b = true) (h2 : entryLtb b c = true) =>
        entryLtb_trans h1 h2)
      (t.expiration, t) s.timers_ h.sorted hconnexT
  · refine hpermA.trans ?_
    have : ((t.expiration, t) :: s.timers_).map timerImage =
        (t, t.sequence) :: s.timers_.map timerImage := rfl
    refine (List.Perm.cons (t, t.sequence) h.perm).trans ?_
    rw [← this]
    exact (hpermT.map timerImage).symm
  · intro p hp
    rcases List.mem_cons.mp (hpermT.mem_iff.mp hp) with rfl | hp2
    · rfl
    · exact h.fid p hp2
  · intro p hp
    rcases List.mem_cons.mp (hpermT.mem_iff.mp hp) with rfl | hp2
    · exact hbound
    · exact h.bound p hp2
  · intro p hp q hq heq
    rcases List.mem_cons.mp (hpermT.mem_iff.mp hp) with rfl | hp2 <;>
      rcases List.mem_cons.mp (hpermT.mem_iff.mp hq) with rfl | hq2
    · rfl
    · exact absurd heq.symm (hfresh q hq2)
    · exact absurd heq (hfresh p hp2)
    · exact h.inj p hp2 q hq2 heq

lemma addTimer_WF {s : TQState} (whenArg interval : Int) (h : WF s) :
    WF (s.addTimer whenArg interval).1 ∧
      (s.addTimer whenArg interval).1.timers_.Perm
        ((whenArg, ⟨s.nextAddr, s.nextSeq, whenArg, interval⟩) :: s.timers_) ∧
      (s.addTimer whenArg interval).1.nextAddr = s.nextAddr + 1 := by
  have h1 : WF { s with nextAddr := s.nextAddr + 1, nextSeq := s.nextSeq + 1 } :=
    ⟨h.sorted, h.perm, h.fid,
     fun p hp => Nat.lt_succ_of_lt (h.bound p hp), h.inj⟩
  have hfresh : ∀ p ∈ s.timers_, p.2.addr ≠ s.nextAddr :=
    fun p hp => Nat.ne_of_lt (h.bound p hp)
  have := insert_WF (⟨s.nextAddr, s.nextSeq, whenArg, interval⟩ : Timer) h1
    hfresh (Nat.lt_succ_self _)
  exact ⟨this.1, this.2, rfl⟩

lemma findActive_props {s : TQState} {tid : Nat × Nat} {it : ActiveTimer}
    (h : WF s) (hf : findActive tid s.activeTimers_ = some it) :
    it ∈ s.activeTimers_ ∧ it.1.addr = tid.1 ∧ it.2 = tid.2 ∧
      ∃ p0 ∈ s.timers_, timerImage p0 = it := by
  have hmem := List.mem_of_find?_eq_some hf
  have hpred := List.find?_some hf
  simp only [Bool.and_eq_true, beq_iff_eq] at hpred
  refine ⟨hmem, hpred.1, hpred.2, ?_⟩
  rcases List.mem_map.mp (h.perm.subset hmem) with ⟨p0, hp0, himg⟩
  exact ⟨p0, hp0, himg⟩

lemma cancel_found_state {s : TQState} {tid : Nat × Nat} {it : ActiveTimer}
    (hf : findActive tid s.activeTimers_ = some it) :
    s.cancelInLoop tid =
      { s with
        timers_ := setEraseBy entryLtb (it.1.expiration, it.1) s.timers_,
        activeTimers_ := setEraseBy activeLtb it s.activeTimers_ } := by
  rw [TQState.cancelInLoop, hf]

lemma entryLtb_or_iff_pair (e : Int) (t : Timer) (y : Entry) :
    (entryLtb (e, t) y || entryLtb y (e, t)) = true ↔
      ¬(e = y.1 ∧ t.addr = y.2.addr) :=
  entryLtb_or_iff (e, t) y

lemma activeLtb_or_iff_pair (t : Timer) (n : Nat) (y : ActiveTimer) :
    (activeLtb (t, n) y || activeLtb y (t, n)) = true ↔
      ¬(t.addr = y.1.addr ∧ n = y.2) :=
  activeLtb_or_iff (t, n) y

lemma cancel_found_filters {s : TQState} {tid : Nat × Nat} {it : ActiveTimer}
    (h : WF s) (hf : findActive tid s.activeTimers_ = some it) :
    (s.cancelInLoop tid).timers_ =
      s.timers_.filter
        (fun p => !(p.2.addr == tid.1 && p.2.sequence == tid.2)) ∧
    (s.cancelInLoop tid).activeTimers_ =
      s.activeTimers_.filter
        (fun y => !(y.1.addr == tid.1 && y.2 == tid.2)) := by
  rcases findActive_props h hf with ⟨hmem, haddr, hseq, p0, hp0, himg⟩
  subst himg
  simp only [timerImage] at haddr hseq
  rw [cancel_found_state hf]
  simp only [timerImage]
  constructor
  · rw [setEraseBy]
    apply List.filter_congr
    intro p hp
    apply bool_eq_of_iff
    rw [entryLtb_or_iff_pair]
    have hiff : (p0.2.expiration = p.1 ∧ p0.2.addr = p.2.addr) ↔
        (p.2.addr = tid.1 ∧ p.2.sequence = tid.2) := by
      constructor
      · rintro ⟨he, ha⟩
        have hpp0 : p = p0 := h.inj p hp p0 hp0 ha.symm
        subst hpp0
        exact ⟨haddr, hseq⟩
      · rintro ⟨ha, _⟩
        have hpp0 : p = p0 := h.inj p hp p0 hp0 (by rw [ha, ← haddr])
        subst hpp0
        exact ⟨(h.fid p hp).symm, rfl⟩
    rw [hiff]
    simp only [Bool.not_eq_true', Bool.and_eq_false_iff, beq_eq_false_iff_ne,
      ne_eq, Bool.not_eq_true]
    tauto
  · rw [setEraseBy]
    apply List.filter_congr
    intro y _
    apply bool_eq_of_iff
    rw [activeLtb_or_iff_pair]
    have hiff : (p0.2.addr = y.1.addr ∧ p0.2.sequence = y.2) ↔
        (y.1.addr = tid.1 ∧ y.2 = tid.2) := by
      rw [← haddr, ← hseq]
      constructor
      · rintro ⟨a, b⟩; exact ⟨a.symm, b.symm⟩
      · rintro ⟨a, b⟩; exact ⟨a.symm, b.symm⟩
    rw [hiff]
    simp only [Bool.not_eq_true', Bool.and_eq_false_iff, beq_eq_false_iff_ne,
      ne_eq, Bool.not_eq_true]
    tauto

lemma cancelInLoop_WF {s : TQState} (tid : Nat × Nat) (h : WF s) :
    WF (s.cancelInLoop tid) ∧
      (s.cancelInLoop tid).timers_.Sublist s.timers_ ∧
      (s.cancelInLoop tid).nextAddr = s.nextAddr := by
  cases hf : findActive tid s.activeTimers_ with
  | none =>
    rw [TQState.cancelInLoop, hf]
    by_cases hcall : s.callingExpiredTimers_ = true
    · rw [if_pos hcall]
      exact ⟨⟨h.sorted, h.perm, h.fid, h.bound, h.inj⟩,
        List.Sublist.refl _, rfl⟩
    · rw [if_neg hcall]
      exact ⟨h, List.Sublist.refl _, rfl⟩
  | some it =>
    rcases cancel_found_filters h hf with ⟨hT, hA⟩
    have hsubT : (s.cancelInLoop tid).timers_.Sublist s.timers_ := by
      rw [hT]; exact List.filter_sublist _
    have hnext : (s.cancelInLoop tid).nextAddr = s.nextAddr := by
      rw [cancel_found_state hf]
    refine ⟨⟨?_, ?_, ?_, ?_, ?_⟩, hsubT, hnext⟩
    · exact List.Pairwise.sublist hsubT h.sorted
    · rw [hT, hA]
      refine (List.Perm.filter _ h.perm).trans ?_
      rw [List.filter_map]
      have hcongr : s.timers_.filter
          ((fun y => !(y.1.addr == tid.1 && y.2 == tid.2)) ∘ timerImage) =
          s.timers_.filter
            (fun p => !(p.2.addr == tid.1 && p.2.sequence == tid.2)) :=
        List.filter_congr (fun p _ => rfl)
      rw [hcongr]
    · intro p hp
      exact h.fid p (hsubT.subset hp)
    · intro p hp
      rw [hnext]
      exact h.bound p (hsubT.subset hp)
    · intro p hp q hq
      exact h.inj p (hsubT.subset hp) q (hsubT.subset hq)

lemma timers_nodup {s : TQState} (h : WF s) : s.timers_.Nodup := by
  refine List.Pairwise.imp ?_ h.sorted
  intro a b hab heq
  subst heq
  exact entryLtb_irrefl a hab

lemma getExpired_fst (s : TQState) (now : Int) :
    (s.getExpired now).1 = s.timers_.takeWhile (ltSentry now) := rfl

lemma getExpired_timers (s : TQState) (now : Int) :
    (s.getExpired now).2.timers_ = s.timers_.dropWhile (ltSentry now) := rfl

lemma getExpired_split (s : TQState) (now : Int) :
    (s.getExpired now).1 ++ (s.getExpired now).2.timers_ = s.timers_ :=
  List.takeWhile_append_dropWhile _ _

lemma getExpired_active_eq (s : TQState) (now : Int) :
    (s.getExpired now).2.activeTimers_ =
      s.activeTimers_.filter (fun y => (s.getExpired now).1.all
        (fun p => activeLtb (timerImage p) y || activeLtb y (timerImage p))) :=
  foldl_setEraseBy _ _

lemma getExpired_core {s : TQState} (now : Int)
    (hsorted : s.timers_.Pairwise (fun p q => entryLtb p q = true))
    (hperm : s.activeTimers_.Perm (s.timers_.map timerImage))
    (hinj : ∀ p ∈ s.timers_, ∀ q ∈ s.timers_, p.2.addr = q.2.addr → p = q) :
    (s.getExpired now).2.activeTimers_.Perm
        ((s.getExpired now).2.timers_.map timerImage) ∧
      (∀ p ∈ (s.getExpired now).1, p ∈ s.timers_) ∧
      (∀ p ∈ (s.getExpired now).1, ∀ q ∈ (s.getExpired now).2.timers_,
        q.2.addr ≠ p.2.addr) ∧
      (s.getExpired now).1.Pairwise (fun p q => p.2.addr ≠ q.2.addr) := by
  have hsplit := getExpired_split s now
  have hEsub : (s.getExpired now).1.Sublist s.timers_ := by
    rw [getExpired_fst]
    exact List.takeWhile_sublist _
  have hRsub : (s.getExpired now).2.timers_.Sublist s.timers_ := by
    rw [getExpired_timers]
    exact List.dropWhile_sublist _
  have hnd : s.timers_.Nodup := by
    refine List.Pairwise.imp ?_ hsorted
    intro a b hab heq
    subst heq
    exact entryLtb_irrefl a hab
  have hdisj : (s.getExpired now).1.Disjoint (s.getExpired now).2.timers_ := by
    apply List.disjoint_of_nodup_append
    rw [hsplit]
    exact hnd
  have hmemE : ∀ p ∈ (s.getExpired now).1, p ∈ s.timers_ :=
    fun p hp => hEsub.subset hp
  have hmemR : ∀ q ∈ (s.getExpired now).2.timers_, q ∈ s.timers_ :=
    fun q hq => hRsub.subset hq
  have haddrdisj : ∀ p ∈ (s.getExpired now).1,
      ∀ q ∈ (s.getExpired now).2.timers_, q.2.addr ≠ p.2.addr := by
    intro p hp q hq heq
    have hqp : q = p := hinj q (hmemR q hq) p (hmemE p hp) heq
    exact hdisj hp (hqp ▸ hq)
  have hpA : (s.getExpired now).2.activeTimers_.Perm
      ((s.getExpired now).2.timers_.map timerImage) := by
    rw [getExpired_active_eq]
    refine (List.Perm.filter _ hperm).trans ?_
    rw [List.filter_map]
    have hkey : s.timers_.filter ((fun y => (s.getExpired now).1.all
        (fun p => activeLtb (timerImage p) y || activeLtb y (timerImage p)))
          ∘ timerImage) = (s.getExpired now).2.timers_ := by
      conv_lhs => rw [← hsplit]
      rw [List.filter_append]
      have hE0 : (s.getExpired now).1.filter ((fun y =>
          (s.getExpired now).1.all (fun p =>
            activeLtb (timerImage p) y || activeLtb y (timerImage p)))
              ∘ timerImage) = [] := by
        refine List.filter_eq_nil_iff.mpr ?_
        intro a ha hall
        simp only [Function.comp] at hall
        have := (List.all_eq_true.mp hall) a ha
        rw [activeLtb_or_iff] at this
        exact this ⟨rfl, rfl⟩
      have hR1 : (s.getExpired now).2.timers_.filter ((fun y =>
          (s.getExpired now).1.all (fun p =>
            activeLtb (timerImage p) y || activeLtb y (timerImage p)))
              ∘ timerImage) = (s.getExpired now).2.timers_ := by
        refine List.filter_eq_self.mpr ?_
        intro q hq
        simp only [Function.comp]
        refine List.all_eq_true.mpr ?_
        intro p hp
        rw [activeLtb_or_iff]
        simp only [timerImage]
        rintro ⟨ha, _⟩
        exact haddrdisj p hp q hq ha.symm
      rw [hE0, hR1, List.nil_append]
    rw [hkey]
  refine ⟨hpA, hmemE, haddrdisj, ?_⟩
  refine List.Pairwise.imp_of_mem ?_ (List.Nodup.sublist hEsub hnd)
  intro a b ha hb hne heq
  exact hne (hinj a (hmemE a ha) b (hmemE b hb) heq)

lemma getExpired_WF {s : TQState} (now : Int) (h : WF s) :
    WF (s.getExpired now).2 ∧
      (∀ p ∈ (s.getExpired now).1, p ∈ s.timers_) ∧
      (∀ p ∈ (s.getExpired now).1, ∀ q ∈ (s.getExpired now).2.timers_,
        q.2.addr ≠ p.2.addr) ∧
      (s.getExpired now).1.Pairwise (fun p q => p.2.addr ≠ q.2.addr) := by
  rcases getExpired_core now h.sorted h.perm h.inj with
    ⟨hpA, hmemE, haddrdisj, hpw⟩
  have hRsub : (s.getExpired now).2.timers_.Sublist s.timers_ := by
    rw [getExpired_timers]
    exact List.dropWhile_sublist _
  refine ⟨⟨?_, hpA, ?_, ?_, ?_⟩, hmemE, haddrdisj, hpw⟩
  · exact List.Pairwise.sublist hRsub h.sorted
  · intro p hp
    exact h.fid p (hRsub.subset hp)
  · intro p hp
    exact h.bound p (hRsub.subset hp)
  · intro p hp q hq
    exact h.inj p (hRsub.subset hp) q (hRsub.subset hq)

lemma Timer.restart_addr (t : Timer) (now : Int) :
    (t.restart now).addr = t.addr := by
  rw [Timer.restart]
  split <;> rfl

lemma resetStep_WF {now : Int} {s : TQState} {p : Entry} (h : WF s)
    (hb : p.2.addr < s.nextAddr)
    (hf : ∀ q ∈ s.timers_, q.2.addr ≠ p.2.addr) :
    WF (TQState.resetStep now s p) ∧
      (TQState.resetStep now s p).nextAddr = s.nextAddr ∧
      (∀ q ∈ (TQState.resetStep now s p).timers_,
        q.2.addr = p.2.addr ∨ q ∈ s.timers_) := by
  rw [TQState.resetStep]
  split
  · have hfresh : ∀ q ∈ s.timers_, q.2.addr ≠ (p.2.restart now).addr := by
      intro q hq
      rw [Timer.restart_addr]
      exact hf q hq
    have hbound : (p.2.restart now).addr < s.nextAddr := by
      rw [Timer.restart_addr]
      exact hb
    rcases insert_WF (p.2.restart now) h hfresh hbound with ⟨hW, hperm⟩
    refine ⟨hW, rfl, ?_⟩
    intro q hq
    rcases List.mem_cons.mp (hperm.mem_iff.mp hq) with rfl | hq2
    · left
      exact Timer.restart_addr p.2 now
    · right
      exact hq2
  · exact ⟨h, rfl, fun q hq => Or.inr hq⟩

lemma reset_WF (now : Int) : ∀ (E : List Entry) (s : TQState), WF s →
    (∀ p ∈ E, p.2.addr < s.nextAddr) →
    (∀ p ∈ E, ∀ q ∈ s.timers_, q.2.addr ≠ p.2.addr) →
    E.Pairwise (fun p q => p.2.addr ≠ q.2.addr) →
    WF (s.reset E now) := by
  intro E
  induction E with
  | nil => intro s h _ _ _; exact h
  | cons p E ih =>
    intro s h hb hf hpw
    rcases List.pairwise_cons.mp hpw with ⟨hhead, htail⟩
    rcases resetStep_WF h (hb p (List.mem_cons_self p E))
      (hf p (List.mem_cons_self p E)) with ⟨hW2, hnext2, hmem2⟩
    rw [TQState.reset, List.foldl_cons]
    refine ih (TQState.resetStep now s p) hW2 ?_ ?_ htail
    · intro q hq
      rw [hnext2]
      exact hb q (List.mem_cons_of_mem p hq)
    · intro q' hq' q hq
      rcases hmem2 q hq with haddr | hmem
      · rw [haddr]
        exact hhead q' hq'
      · exact hf q' (List.mem_cons_of_mem p hq') q hmem

lemma applyCbOp_WF (op : CbOp) {s : TQState} (h : WF s) :
    WF (s.applyCbOp op) ∧ s.nextAddr ≤ (s.applyCbOp op).nextAddr ∧
      (∀ a, a < s.nextAddr → (∀ q ∈ s.timers_, q.2.addr ≠ a) →
        ∀ q ∈ (s.applyCbOp op).timers_, q.2.addr ≠ a) := by
  cases op with
  | add w i =>
    rcases addTimer_WF w i h with ⟨hW, hperm, hnext⟩
    refine ⟨hW, ?_, ?_⟩
    · rw [show s.applyCbOp (CbOp.add w i) = (s.addTimer w i).1 from rfl,
        hnext]
      exact Nat.le_succ _
    · intro a ha hfr q hq
      rcases List.mem_cons.mp (hperm.mem_iff.mp hq) with rfl | hq2
      · exact fun hc => absurd (hc ▸ ha) (lt_irrefl _)
      · exact hfr q hq2
  | cancelOp tid =>
    rcases cancelInLoop_WF tid h with ⟨hW, hsub, hnext⟩
    refine ⟨hW, le_of_eq hnext.symm, ?_⟩
    intro a _ hfr q hq
    exact hfr q (hsub.subset hq)

lemma foldCbOps_WF (cbOps : List CbOp) : ∀ s : TQState, WF s →
    WF (cbOps.foldl TQState.applyCbOp s) ∧
      s.nextAddr ≤ (cbOps.foldl TQState.applyCbOp s).nextAddr ∧
      (∀ a, a < s.nextAddr → (∀ q ∈ s.timers_, q.2.addr ≠ a) →
        ∀ q ∈ (cbOps.foldl TQState.applyCbOp s).timers_, q.2.addr ≠ a) := by
  induction cbOps with
  | nil => intro s h; exact ⟨h, le_refl _, fun a _ hfr => hfr⟩
  | cons op ops ih =>
    intro s h
    rcases applyCbOp_WF op h with ⟨hW2, hle2, hfr2⟩
    rcases ih (s.applyCbOp op) hW2 with ⟨hW3, hle3, hfr3⟩
    rw [List.foldl_cons]
    refine ⟨hW3, le_trans hle2 hle3, ?_⟩
    intro a ha hfr
    exact hfr3 a (lt_of_lt_of_le ha hle2) (hfr2 a ha hfr)

lemma handleRead_WF {s : TQState} (now : Int) (cbOps : List CbOp)
    (h : WF s) : WF (s.handleRead now cbOps) := by
  rcases getExpired_WF now h with ⟨hW2, hmemE, hdisj, hpw⟩
  have hW1 : WF { (s.getExpired now).2 with
      callingExpiredTimers_ := true, cancelingTimers_ := [] } :=
    ⟨hW2.sorted, hW2.perm, hW2.fid, hW2.bound, hW2.inj⟩
  rcases foldCbOps_WF cbOps _ hW1 with ⟨hW3, hle, hfr⟩
  show WF (TQState.reset _ (s.getExpired now).1 now)
  refine reset_WF now (s.getExpired now).1 _ ⟨hW3.sorted, hW3.perm, hW3.fid,
    hW3.bound, hW3.inj⟩ ?_ ?_ hpw
  · intro p hp
    have h1 : p.2.addr < s.nextAddr := h.bound p (hmemE p hp)
    exact lt_of_lt_of_le h1 hle
  · intro p hp q hq
    have h1 : p.2.addr < s.nextAddr := h.bound p (hmemE p hp)
    exact hfr p.2.addr h1 (fun q2 hq2 => hdisj p hp q2 hq2) q hq

lemma applyOp_WF (op : TQOp) {s : TQState} (h : WF s) :
    WF (s.applyOp op) := by
  cases op with
  | add w i => exact (addTimer_WF w i h).1
  | cancelOp tid => exact (cancelInLoop_WF tid h).1
  | expire now cbOps => exact handleRead_WF now cbOps h

lemma runOps_WF (ops : List TQOp) : WF (runOps ops) := by
  rw [runOps]
  have hgen : ∀ (l : List TQOp) (s : TQState), WF s →
      WF (l.foldl TQState.applyOp s) := by
    intro l
    induction l with
    | nil => intro s h; exact h
    | cons op l ih =>
      intro s h
      rw [List.foldl_cons]
      exact ih _ (applyOp_WF op h)
  exact hgen ops _ WF.init

/-- C2: at every stable observation point of the TimerQueue — the state
reached after any sequence of addTimer, cancel and expiry-drain operations,
which covers the points after addTimerInLoop, after cancelInLoop and after
the drain (getExpired followed by reset) — the two parallel indices hold
the same number of timers: |byExpiry (timers_)| = |byIdentity
(activeTimers_)|. -/
theorem timerQueue_cardinality_invariant (ops : List TQOp) :
    (runOps ops).timers_.length = (runOps ops).activeTimers_.length :=
  (runOps_WF ops).sizes_eq

lemma takeWhile_congr_mem {α : Type} {p q : α → Bool} :
    ∀ l : List α, (∀ a ∈ l, p a = q a) →
      l.takeWhile p = l.takeWhile q ∧ l.dropWhile p = l.dropWhile q := by
  intro l
  induction l with
  | nil => intro _; exact ⟨rfl, rfl⟩
  | cons a l ih =>
    intro h
    have ha := h a (List.mem_cons_self a l)
    rcases ih (fun b hb => h b (List.mem_cons_of_mem a hb)) with ⟨h1, h2⟩
    constructor
    · rw [List.takeWhile_cons, List.takeWhile_cons, ha, h1]
    · rw [List.dropWhile_cons, List.dropWhile_cons, ha, h2]

lemma takeWhile_eq_filter_sorted {α : Type} {lt : α → α → Bool}
    {P : α → Bool}
    (hdc : ∀ a b, lt a b = true → P b = true → P a = true) :
    ∀ l : List α, l.Pairwise (fun a b => lt a b = true) →
      l.takeWhile P = l.filter P ∧
        l.dropWhile P = l.filter (fun a => !(P a)) := by
  intro l
  induction l with
  | nil => intro _; exact ⟨rfl, rfl⟩
  | cons a l ih =>
    intro hp
    rcases List.pairwise_cons.mp hp with ⟨ha, hl⟩
    rcases ih hl with ⟨ih1, ih2⟩
    by_cases hPa : P a = true
    · constructor
      · simp [List.takeWhile_cons, List.filter_cons, hPa, ih1]
      · simp [List.dropWhile_cons, List.filter_cons, hPa, ih2]
    · have hall : ∀ b ∈ l, P b = false := by
        intro b hb
        cases hPb : P b with
        | false => rfl
        | true => exact absurd (hdc a b (ha b hb) hPb) hPa
      have hPa0 : P a = false := by
        cases hPb : P a with
        | false => rfl
        | true => exact absurd hPb hPa
      constructor
      · rw [List.takeWhile_cons]
        simp only [hPa0, Bool.false_eq_true, if_false]
        symm
        refine List.filter_eq_nil_iff.mpr ?_
        intro b hb
        rcases List.mem_cons.mp hb with rfl | hb2
        · simp [hPa0]
        · simp [hall b hb2]
      · rw [List.dropWhile_cons]
        simp only [hPa0, Bool.false_eq_true, if_false]
        symm
        refine List.filter_eq_self.mpr ?_
        intro b hb
        rcases List.mem_cons.mp hb with rfl | hb2
        · simp [hPa0]
        · simp [hall b hb2]

lemma ltSentry_eq_le {now : Int} {p : Entry} (hU : p.2.addr < UINTPTR_MAX) :
    ltSentry now p = decide (p.1 ≤ now) := by
  apply bool_eq_of_iff
  simp only [UINTPTR_MAX] at hU
  simp only [ltSentry, entryLtb, sentry, UINTPTR_MAX, Bool.or_eq_true,
    Bool.and_eq_true, decide_eq_true_eq, beq_iff_eq]
  omega

/-- C3: getExpired(now) returns exactly the timers strictly below the
sentinel (now, maximum pointer) in byExpiry order — equivalently, all
entries with expiration at most now — listed in ascending
(expiration, address) order; they are removed from both indices (byIdentity
stays the exact image of the remaining byExpiry), and every remaining entry
has expiration strictly greater than now. -/
theorem getExpired_spec (s : TQState) (now : Int)
    (hsorted : s.timers_.Pairwise (fun p q => entryLtb p q = true))
    (hperm : s.activeTimers_.Perm (s.timers_.map timerImage))
    (hinj : ∀ p ∈ s.timers_, ∀ q ∈ s.timers_, p.2.addr = q.2.addr → p = q)
    (hU : ∀ p ∈ s.timers_, p.2.addr < UINTPTR_MAX) :
    (s.getExpired now).1 = s.timers_.filter (fun p => decide (p.1 ≤ now)) ∧
    (s.getExpired now).1.Pairwise (fun p q => entryLtb p q = true) ∧
    (s.getExpired now).2.timers_ =
      s.timers_.filter (fun p => decide (now < p.1)) ∧
    (∀ q ∈ (s.getExpired now).2.timers_, now < q.1) ∧
    (s.getExpired now).2.activeTimers_.Perm
      ((s.getExpired now).2.timers_.map timerImage) := by
  have hcongr : ∀ a ∈ s.timers_,
      ltSentry now a = (fun p : Entry => decide (p.1 ≤ now)) a :=
    fun a ha => ltSentry_eq_le (hU a ha)
  rcases takeWhile_congr_mem s.timers_ hcongr with ⟨hc1, hc2⟩
  have hdc : ∀ a b : Entry, entryLtb a b = true →
      decide (b.1 ≤ now) = true → decide (a.1 ≤ now) = true := by
    intro a b hab hb
    simp only [entryLtb, Bool.or_eq_true, Bool.and_eq_true,
      decide_eq_true_eq, beq_iff_eq] at hab hb ⊢
    omega
  rcases takeWhile_eq_filter_sorted hdc s.timers_ hsorted with ⟨hf1, hf2⟩
  have hE : (s.getExpired now).1 =
      s.timers_.filter (fun p => decide (p.1 ≤ now)) := by
    rw [getExpired_fst, hc1, hf1]
  have hR : (s.getExpired now).2.timers_ =
      s.timers_.filter (fun p => decide (now < p.1)) := by
    rw [getExpired_timers, hc2, hf2]
    apply List.filter_congr
    intro a _
    apply bool_eq_of_iff
    simp only [Bool.not_eq_true', decide_eq_true_eq, decide_eq_false_iff_not]
    omega
  refine ⟨hE, ?_, hR, ?_, (getExpired_core now hsorted hperm hinj).1⟩
  · refine List.Pairwise.sublist ?_ hsorted
    rw [getExpired_fst]
    exact List.takeWhile_sublist _
  · intro q hq
    rw [hR] at hq
    rcases List.mem_filter.mp hq with ⟨_, hd⟩
    simpa using hd

/-- Witness for getExpired_spec: at now = 2 the drain takes exactly the
timers with expiration at most 2. -/
theorem getExpired_spec_witness :
    (sampleTQ.getExpired 2).1 =
      sampleTQ.timers_.filter (fun p => decide (p.1 ≤ 2)) :=
  (getExpired_spec sampleTQ 2 (by decide) (by decide) (by decide)
    (by decide)).1

lemma resetStep_skip {now : Int} {s : TQState} {p : Entry}
    (h : (p.2.addr, p.2.sequence) ∈ s.cancelingTimers_) :
    TQState.resetStep now s p = s := by
  have hc : (p.2.isRepeat &&
      !(s.cancelingTimers_.contains (p.2.addr, p.2.sequence))) = false := by
    have hm : s.cancelingTimers_.contains (p.2.addr, p.2.sequence) = true :=
      List.elem_eq_true_of_mem h
    rw [hm]
    simp
  rw [TQState.resetStep, hc]
  simp

/-- C4: cancelInLoop semantics.  A TimerId found in the active sets is
removed from both indices (no entry with its address and sequence remains
in either); an id not found while the drain is running its callbacks is
recorded in cancelingTimers_ without touching the indices, and the
subsequent reset step skips any expired timer whose id is so recorded,
repeating or not; an id not found outside a drain leaves the state
entirely unchanged. -/
theorem cancelInLoop_spec (s : TQState) (tid : Nat × Nat) (h : WF s) :
    (∀ it, findActive tid s.activeTimers_ = some it →
      (s.cancelInLoop tid).timers_ =
        s.timers_.filter
          (fun p => !(p.2.addr == tid.1 && p.2.sequence == tid.2)) ∧
      (s.cancelInLoop tid).activeTimers_ =
        s.activeTimers_.filter
          (fun y => !(y.1.addr == tid.1 && y.2 == tid.2)) ∧
      (∀ p ∈ (s.cancelInLoop tid).timers_, p.2.addr ≠ tid.1) ∧
      (∀ y ∈ (s.cancelInLoop tid).activeTimers_,
        ¬(y.1.addr = tid.1 ∧ y.2 = tid.2))) ∧
    (findActive tid s.activeTimers_ = none →
      s.callingExpiredTimers_ = true →
      tid ∈ (s.cancelInLoop tid).cancelingTimers_ ∧
      (s.cancelInLoop tid).timers_ = s.timers_ ∧
      (s.cancelInLoop tid).activeTimers_ = s.activeTimers_ ∧
      (∀ (now : Int) (s2 : TQState) (p : Entry),
        (p.2.addr, p.2.sequence) ∈ s2.cancelingTimers_ →
        TQState.resetStep now s2 p = s2)) ∧
    (findActive tid s.activeTimers_ = none →
      s.callingExpiredTimers_ = false → s.cancelInLoop tid = s) := by
  refine ⟨?_, ?_, ?_⟩
  · intro it hf
    rcases cancel_found_filters h hf with ⟨hT, hA⟩
    rcases findActive_props h hf with ⟨hmem, haddr, hseq, p0, hp0, himg⟩
    subst himg
    simp only [timerImage] at haddr hseq
    refine ⟨hT, hA, ?_, ?_⟩
    · intro p hp heq
      rw [hT] at hp
      rcases List.mem_filter.mp hp with ⟨hpmem, hfil⟩
      have hpp0 : p = p0 := h.inj p hpmem p0 hp0 (by rw [heq, haddr])
      subst hpp0
      simp [haddr, hseq] at hfil
    · intro y hy hconj
      rw [hA] at hy
      rcases List.mem_filter.mp hy with ⟨_, hfil⟩
      simp [hconj.1, hconj.2] at hfil
  · intro hf hcall
    have hstate : s.cancelInLoop tid = { s with cancelingTimers_ :=
        if tid ∈ s.cancelingTimers_ then s.cancelingTimers_
        else tid :: s.cancelingTimers_ } := by
      rw [TQState.cancelInLoop, hf, if_pos hcall]
    refine ⟨?_, by rw [hstate], by rw [hstate], ?_⟩
    · rw [hstate]
      by_cases hmem : tid ∈ s.cancelingTimers_
      · simp [hmem]
      · simp [hmem]
    · intro now s2 p hpmem
      exact resetStep_skip hpmem
  · intro hf hcall
    rw [TQState.cancelInLoop, hf, if_neg]
    simp [hcall]

/-- Witness for cancelInLoop_spec: cancelling an unknown TimerId outside a
drain is a no-op on the sample state. -/
theorem cancelInLoop_spec_witness :
    sampleTQ.cancelInLoop (7, 7) = sampleTQ :=
  (cancelInLoop_spec sampleTQ (7, 7)
      ⟨by decide, by decide, by decide, by decide, by decide⟩).2.2
    (by decide) rfl

end Muduo
